import Mathlib

/-!
# Verification of the or-tools local-search core (`constraint_solver/local_search.cc`)

A shallow embedding, in Lean 4, of the parts of the local-search engine that
the specification's claims are about:

* the `IntVarLocalSearchOperator` base class (staged values/activation,
  change list, `ApplyChanges`, `RevertChanges`, `Start`, `MakeNextNeighbor`);
* `PathOperator::CheckChainValidity`;
* the filter aggregation operations (`SumOperation`, `MaxMinOperation`) and
  the binary `ObjectiveFilter`;
* `CompoundOperator` with the no-restart evaluator;
* `MoveTowardTargetLS`;
* the neighbor counters of `FindOneNeighbor::Next`.

Machine integers (`int64`) are modelled by `Int`; none of the code paths
embedded here relies on wrap-around.  C++ vectors/bitmaps become Lean lists
read with `List.getD` (a `Bitmap.Set` out of range is a no-op, matching
`List.set`).  Fatal `CHECK` failures become `Option.none`.
-/

namespace LocalSearch

/-- An element appended to a delta assignment by `ApplyChanges`:
either `Deactivate(var)` or `SetValue(var, value)`.  `var` is the integer
handle of the underlying `IntVar`. -/
inductive DeltaElem where
  | deactivateVar (var : Nat) : DeltaElem
  | setValueVar (var : Nat) (value : Int) : DeltaElem
deriving DecidableEq, Repr

/-- One element of an `Assignment`'s `IntContainer`: the variable handle,
its value and its activation flag. -/
structure IntVarElement where
  var : Nat
  value : Int
  activated : Bool
deriving DecidableEq, Repr, Inhabited

/-- The mutable state of `IntVarLocalSearchOperator`: per-index staged and
reference values/activations, the change bitmaps, the dense change list and
the `cleared_` flag.  `vars` holds the `IntVar` handles. -/
structure OpState where
  vars : List Nat
  values : List Int
  oldValues : List Int
  activated : List Bool
  wasActivated : List Bool
  hasChanged : List Bool
  hasDeltaChanged : List Bool
  changes : List Nat
  cleared : Bool
deriving DecidableEq, Repr

namespace OpState

/-- `IntVarLocalSearchOperator::MarkChange`: set `has_delta_changed_[i]`;
if `has_changed_[i]` was unset, push `i` on `changes_` and set it. -/
def markChange (s : OpState) (i : Nat) : OpState :=
  let hdc := s.hasDeltaChanged.set i true
  if s.hasChanged.getD i false then
    { s with hasDeltaChanged := hdc }
  else
    { s with hasDeltaChanged := hdc
             changes := s.changes ++ [i]
             hasChanged := s.hasChanged.set i true }

/-- `IntVarLocalSearchOperator::SetValue(index, value)`. -/
def setValue (s : OpState) (i : Nat) (v : Int) : OpState :=
  markChange { s with values := s.values.set i v } i

/-- `IntVarLocalSearchOperator::Activate(index)`. -/
def activate (s : OpState) (i : Nat) : OpState :=
  markChange { s with activated := s.activated.set i true } i

/-- `IntVarLocalSearchOperator::Deactivate(index)`. -/
def deactivate (s : OpState) (i : Nat) : OpState :=
  markChange { s with activated := s.activated.set i false } i

end OpState

/-- The body of the `ApplyChanges` loop, iterating over the given suffix of
the `changes_` vector and appending to the accumulated `(delta, deltadelta)`
pair.  `inc` is the value of the virtual `IsIncremental()`, `skip` the
virtual `SkipUnchanged(index)`. -/
def applyChangesLoop (inc : Bool) (skip : Nat → Bool) (s : OpState) :
    List Nat → List DeltaElem × List DeltaElem → List DeltaElem × List DeltaElem
  | [], acc => acc
  | i :: rest, acc =>
    let var := s.vars.getD i 0
    let value := s.values.getD i 0
    let acc' :=
      if !(s.activated.getD i false) then
        let dd :=
          if !s.cleared && s.hasDeltaChanged.getD i false && inc then
            acc.2 ++ [DeltaElem.deactivateVar var]
          else acc.2
        (acc.1 ++ [DeltaElem.deactivateVar var], dd)
      else if value ≠ s.oldValues.getD i 0 || !(skip i) then
        let dd :=
          if !s.cleared && s.hasDeltaChanged.getD i false && inc then
            acc.2 ++ [DeltaElem.setValueVar var value]
          else acc.2
        (acc.1 ++ [DeltaElem.setValueVar var value], dd)
      else acc
    applyChangesLoop inc skip s rest acc'

/-- `IntVarLocalSearchOperator::ApplyChanges(delta, deltadelta)`: walk the
`changes_` list appending elements to both assignments.  (The C++ function
returns `true` unconditionally; the boolean is omitted.) -/
def applyChanges (inc : Bool) (skip : Nat → Bool) (s : OpState)
    (delta deltadelta : List DeltaElem) : List DeltaElem × List DeltaElem :=
  applyChangesLoop inc skip s s.changes (delta, deltadelta)

/-- One iteration of the restore loop in `RevertChanges`: put back the
reference value and activation of index `i` and clear its change bit. -/
def restoreStep (t : OpState) (i : Nat) : OpState :=
  { t with values := t.values.set i (t.oldValues.getD i 0),
           activated := t.activated.set i (t.wasActivated.getD i false),
           hasChanged := t.hasChanged.set i false }

/-- `IntVarLocalSearchOperator::RevertChanges(incremental)`: clear the
delta-changed bitmap and `cleared_`; if `incremental` and the operator is
incremental, stop there; otherwise restore values/activations from the
reference, clear the change bitmap and empty `changes_`. -/
def revertChanges (inc : Bool) (incremental : Bool) (s : OpState) : OpState :=
  let s1 := { s with cleared := false,
                     hasDeltaChanged := List.replicate s.hasDeltaChanged.length false }
  if incremental && inc then s1
  else
    let s2 := s1.changes.foldl restoreStep { s1 with cleared := true }
    { s2 with changes := [] }

/-- The body of the `Start` loop for the indices in the given list: find the
assignment element for operator variable `i` (positionally, falling back to a
by-key lookup), and copy its value/activation into both the staged and the
reference arrays.  A failing lookup is the fatal
`CHECK(container.Contains(var))` and yields `none`. -/
def startLoop (a : List IntVarElement) : OpState → List Nat → Option OpState
  | s, [] => some s
  | s, i :: rest =>
    let v := s.vars.getD i 0
    let e0 := a.getD i default
    let oe := if e0.var ≠ v then a.find? (fun e => e.var = v) else some e0
    match oe with
    | none => none
    | some e =>
      startLoop a
        { s with values := s.values.set i e.value,
                 oldValues := s.oldValues.set i e.value,
                 activated := s.activated.set i e.activated,
                 wasActivated := s.wasActivated.set i e.activated }
        rest

/-- `IntVarLocalSearchOperator::Start(assignment)`: check
`CHECK_LE(size, container.Size())`, then copy each tracked variable's
element; `none` models a fatal `CHECK` failure.  (The `OnStart` hook is the
identity at this level; concrete operators wrap `start`.) -/
def start (s : OpState) (a : List IntVarElement) : Option OpState :=
  if s.vars.length ≤ a.length then startLoop a s (List.range s.vars.length)
  else none

/-- The virtual methods an `IntVarLocalSearchOperator` subclass provides,
with `ε` the subclass's extra state.  `makeOneNeighbor` may both read and
write the shared base state (as `MakeOneNeighbor` does through
`SetValue`/`Deactivate`/`RevertChanges`). -/
structure OpParams (ε : Type) where
  isIncremental : Bool
  skip : Nat → Bool
  makeOneNeighbor : OpState → ε → Bool × OpState × ε

/-- The result of `MakeNextNeighbor`: the returned boolean, the operator
state afterwards, and the two output assignments. -/
structure MNNResult (ε : Type) where
  ok : Bool
  state : OpState
  extra : ε
  delta : List DeltaElem
  deltadelta : List DeltaElem

/-- `IntVarLocalSearchOperator::MakeNextNeighbor(delta, deltadelta)`:
`RevertChanges(true)`, then `MakeOneNeighbor()`, then `ApplyChanges`.
The C++ `while` loop body runs exactly once because the base
`ApplyChanges` returns `true` unconditionally. -/
def makeNextNeighbor {ε : Type} (p : OpParams ε) (s : OpState) (e : ε)
    (delta deltadelta : List DeltaElem) : MNNResult ε :=
  let s1 := revertChanges p.isIncremental true s
  match p.makeOneNeighbor s1 e with
  | (false, s2, e2) => ⟨false, s2, e2, delta, deltadelta⟩
  | (true, s2, e2) =>
    let (d, dd) := applyChanges p.isIncremental p.skip s2 delta deltadelta
    ⟨true, s2, e2, d, dd⟩

/-- The delta contents described by the specification of `ApplyChanges`:
for each `i` in `changes` in order, a `Deactivate(var[i])` when
`activated[i]` is false, otherwise a `SetValue(var[i], value[i])` when the
value differs from the reference or `SkipUnchanged(i)` is false. -/
def describedDelta (skip : Nat → Bool) (s : OpState) : List DeltaElem :=
  s.changes.filterMap (fun i =>
    if !(s.activated.getD i false) then
      some (DeltaElem.deactivateVar (s.vars.getD i 0))
    else if s.values.getD i 0 ≠ s.oldValues.getD i 0 || !(skip i) then
      some (DeltaElem.setValueVar (s.vars.getD i 0) (s.values.getD i 0))
    else none)

/-- The deltadelta contents described by the specification: the same
elements as `describedDelta`, kept exactly when the operator is
incremental, not `cleared`, and `has_delta_changed[i]` holds. -/
def describedDeltaDelta (inc : Bool) (skip : Nat → Bool) (s : OpState) :
    List DeltaElem :=
  s.changes.filterMap (fun i =>
    if !s.cleared && s.hasDeltaChanged.getD i false && inc then
      if !(s.activated.getD i false) then
        some (DeltaElem.deactivateVar (s.vars.getD i 0))
      else if s.values.getD i 0 ≠ s.oldValues.getD i 0 || !(skip i) then
        some (DeltaElem.setValueVar (s.vars.getD i 0) (s.values.getD i 0))
      else none
    else none)

theorem applyChangesLoop_eq (inc : Bool) (skip : Nat → Bool) (s : OpState)
    (l : List Nat) (d dd : List DeltaElem) :
    applyChangesLoop inc skip s l (d, dd) =
      (d ++ (l.filterMap (fun i =>
        if !(s.activated.getD i false) then
          some (DeltaElem.deactivateVar (s.vars.getD i 0))
        else if s.values.getD i 0 ≠ s.oldValues.getD i 0 || !(skip i) then
          some (DeltaElem.setValueVar (s.vars.getD i 0) (s.values.getD i 0))
        else none)),
       dd ++ (l.filterMap (fun i =>
        if !s.cleared && s.hasDeltaChanged.getD i false && inc then
          if !(s.activated.getD i false) then
            some (DeltaElem.deactivateVar (s.vars.getD i 0))
          else if s.values.getD i 0 ≠ s.oldValues.getD i 0 || !(skip i) then
            some (DeltaElem.setValueVar (s.vars.getD i 0) (s.values.getD i 0))
          else none
        else none))) := by
  induction l generalizing d dd with
  | nil => simp [applyChangesLoop]
  | cons i rest ih =>
    cases inc <;>
    by_cases hc : s.cleared = true <;>
    by_cases hdc : s.hasDeltaChanged.getD i false = true <;>
    by_cases hact : s.activated.getD i false = true <;>
    by_cases hval : s.values.getD i 0 = s.oldValues.getD i 0 <;>
    by_cases hskip : skip i = true <;>
    · simp [applyChangesLoop, List.filterMap_cons, ih, hc, hdc, hact, hval, hskip,
        -List.getD_eq_getElem?_getD]

/-- `ApplyChanges` emits exactly the elements the spec describes, appended
to the incoming assignments. -/
theorem applyChanges_eq (inc : Bool) (skip : Nat → Bool) (s : OpState)
    (d dd : List DeltaElem) :
    applyChanges inc skip s d dd =
      (d ++ describedDelta skip s, dd ++ describedDeltaDelta inc skip s) := by
  unfold applyChanges describedDelta describedDeltaDelta
  exact applyChangesLoop_eq inc skip s s.changes d dd

end LocalSearch

namespace LocalSearch

/-- C1: `ApplyChanges` appends, for each index in the change list in order,
`Deactivate(var[i])` when deactivated, else `SetValue(var[i], value[i])`
when the value changed or `SkipUnchanged(i)` is false; the element is
mirrored into `deltadelta` exactly when the operator is incremental, not
cleared, and `has_delta_changed[i]`; and nothing else is added. -/
theorem C1_applyChanges_spec (inc : Bool) (skip : Nat → Bool) (s : OpState)
    (delta deltadelta : List DeltaElem) :
    applyChanges inc skip s delta deltadelta =
      (delta ++ describedDelta skip s,
       deltadelta ++ describedDeltaDelta inc skip s) :=
  applyChanges_eq inc skip s delta deltadelta

end LocalSearch

namespace LocalSearch

/-- Structural well-formedness of the operator state: each per-variable
array has one slot per tracked variable, and every index outside the change
list still agrees with the reference. -/
def WellFormed (s : OpState) : Prop :=
  s.values.length = s.vars.length ∧
  s.oldValues.length = s.vars.length ∧
  s.activated.length = s.vars.length ∧
  s.wasActivated.length = s.vars.length ∧
  ∀ i < s.vars.length, i ∉ s.changes →
    s.values.getD i 0 = s.oldValues.getD i 0 ∧
    s.activated.getD i false = s.wasActivated.getD i false

/-- The reference state: staged values and activations agree with the
reference for every tracked index, and the change list is empty. -/
def RefState (s : OpState) : Prop :=
  (∀ i < s.vars.length,
    s.values.getD i 0 = s.oldValues.getD i 0 ∧
    s.activated.getD i false = s.wasActivated.getD i false) ∧
  s.changes = []

instance (s : OpState) : Decidable (WellFormed s) := by
  unfold WellFormed; infer_instance

instance (s : OpState) : Decidable (RefState s) := by
  unfold RefState; infer_instance

theorem restoreStep_vars (t : OpState) (j : Nat) : (restoreStep t j).vars = t.vars := rfl

theorem restoreStep_oldValues (t : OpState) (j : Nat) :
    (restoreStep t j).oldValues = t.oldValues := rfl

theorem restoreStep_wasActivated (t : OpState) (j : Nat) :
    (restoreStep t j).wasActivated = t.wasActivated := rfl

theorem foldl_restoreStep_vars (l : List Nat) (t : OpState) :
    (l.foldl restoreStep t).vars = t.vars := by
  induction l generalizing t with
  | nil => rfl
  | cons j rest ih => simp [List.foldl_cons, ih, restoreStep_vars]

/-- Running the restore loop over the whole change list brings every tracked
index back to its reference value and activation, provided every index
outside the processed list already agreed with the reference. -/
theorem foldl_restoreStep_restores (n : Nat) (l : List Nat) (t : OpState)
    (hv : t.values.length = n) (ha : t.activated.length = n)
    (hA : ∀ i < n, i ∉ l →
      t.values.getD i 0 = t.oldValues.getD i 0 ∧
      t.activated.getD i false = t.wasActivated.getD i false) :
    ∀ i < n,
      (l.foldl restoreStep t).values.getD i 0 =
        (l.foldl restoreStep t).oldValues.getD i 0 ∧
      (l.foldl restoreStep t).activated.getD i false =
        (l.foldl restoreStep t).wasActivated.getD i false := by
  induction l generalizing t with
  | nil =>
    intro i hi
    exact hA i hi (by simp)
  | cons j rest ih =>
    intro i hi
    rw [List.foldl_cons]
    refine ih (restoreStep t j) ?_ ?_ ?_ i hi
    · simp [restoreStep, hv]
    · simp [restoreStep, ha]
    · intro k hk hkrest
      by_cases hkj : k = j
      · subst hkj
        have hk1 : k < t.values.length := hv ▸ hk
        have hk2 : k < t.activated.length := ha ▸ hk
        constructor
        · simp [restoreStep, List.getD_eq_getElem?_getD,
            List.getElem?_set_self', hk1]
        · simp [restoreStep, List.getD_eq_getElem?_getD,
            List.getElem?_set_self', hk2]
      · have hmem : k ∉ j :: rest := by
          intro hc
          rcases List.mem_cons.mp hc with h1 | h1
          · exact hkj h1
          · exact hkrest h1
        have base := hA k hk hmem
        have hjk : j ≠ k := fun h => hkj h.symm
        constructor
        · simpa [restoreStep, List.getD_eq_getElem?_getD,
            List.getElem?_set_ne hjk] using base.1
        · simpa [restoreStep, List.getD_eq_getElem?_getD,
            List.getElem?_set_ne hjk] using base.2

/-- `RevertChanges` with a false `incremental && IsIncremental()` condition
fully restores the reference state. -/
theorem revertChanges_noninc (b : Bool) (s : OpState) (h : WellFormed s) :
    RefState (revertChanges false b s) := by
  obtain ⟨hv, _, ha, _, hA⟩ := h
  unfold revertChanges
  simp only [Bool.and_false, if_neg (by simp : ¬(b && false) = true)]
  constructor
  · intro i hi
    rw [foldl_restoreStep_vars] at hi
    exact foldl_restoreStep_restores s.vars.length s.changes _
      (by simpa using hv) (by simpa using ha)
      (by intro k hk hkc; exact hA k hk hkc) i hi
  · rfl

/-- Every element of the spec-described deltadelta also appears in the
spec-described delta. -/
theorem mem_describedDelta_of_mem_describedDeltaDelta
    (inc : Bool) (skip : Nat → Bool) (s : OpState) (x : DeltaElem)
    (hx : x ∈ describedDeltaDelta inc skip s) : x ∈ describedDelta skip s := by
  simp only [describedDelta, describedDeltaDelta, List.mem_filterMap] at hx ⊢
  obtain ⟨i, hi, h⟩ := hx
  refine ⟨i, hi, ?_⟩
  by_cases hg : (!s.cleared && s.hasDeltaChanged.getD i false && inc) = true
  · rwa [if_pos hg] at h
  · rw [if_neg hg] at h
    exact absurd h (by simp)

/-- With the `cleared_` flag set, the spec-described deltadelta is empty. -/
theorem describedDeltaDelta_of_cleared
    (inc : Bool) (skip : Nat → Bool) (s : OpState) (h : s.cleared = true) :
    describedDeltaDelta inc skip s = [] := by
  rw [describedDeltaDelta, List.filterMap_eq_nil_iff]
  intro i _
  simp [h]

end LocalSearch

namespace LocalSearch

/-- A freshly constructed one-variable operator (variable handle 11): the
arrays are sized, nothing is staged, `cleared_` is true. -/
def exFresh : OpState :=
  ⟨[11], [0], [0], [false], [false], [false], [false], [], true⟩

/-- A reference assignment binding variable 11 to value 0, activated. -/
def exRefAssign : List IntVarElement := [⟨11, 0, true⟩]

/-- The state of `exFresh` right after `Start(exRefAssign)`. -/
def exStarted : OpState :=
  ⟨[11], [0], [0], [true], [true], [false], [false], [], true⟩

/-- An incremental operator whose `MakeOneNeighbor` stages `values[0] := 5`
once (when index 0 is still at its reference value) and afterwards reports
exhaustion without touching the state, the way incremental operators extend
a staged candidate. -/
def exIncOnce : OpParams Unit :=
  ⟨true, fun _ => false,
   fun t _ =>
     if t.values.getD 0 0 = 0 then (true, t.setValue 0 5, ()) else (false, t, ())⟩

/-- C2 counterexample: for the incremental operator `exIncOnce`, started on
`exRefAssign`, the second `MakeNextNeighbor` returns false while the staged
value 5 and the change list `[0]` are still in place — the operator is not
in the reference state, because `RevertChanges(true)` keeps staged changes
of incremental operators. -/
theorem C2_counterexample :
    start exFresh exRefAssign = some exStarted ∧
    (makeNextNeighbor exIncOnce exStarted () [] []).ok = true ∧
    (makeNextNeighbor exIncOnce
      (makeNextNeighbor exIncOnce exStarted () [] []).state () [] []).ok = false ∧
    (makeNextNeighbor exIncOnce
      (makeNextNeighbor exIncOnce exStarted () [] []).state () [] []).state.values =
      [5] ∧
    (makeNextNeighbor exIncOnce
      (makeNextNeighbor exIncOnce exStarted () [] []).state () [] []).state.changes =
      [0] ∧
    ¬ RefState (makeNextNeighbor exIncOnce
      (makeNextNeighbor exIncOnce exStarted () [] []).state () [] []).state := by
  decide

/-- C2 (amended): for a NON-incremental operator whose `MakeOneNeighbor`
leaves the state untouched when it fails, a false `MakeNextNeighbor` leaves
the operator in the reference state (staged values and activations equal
the reference, empty change list), and a true return with initially empty
delta yields exactly the elements `ApplyChanges` describes for the staged
candidate. -/
theorem C2_makeNextNeighbor_amended {ε : Type} (p : OpParams ε) (s : OpState)
    (e : ε) (hni : p.isIncremental = false)
    (hfp : ∀ t x, (p.makeOneNeighbor t x).1 = false →
      (p.makeOneNeighbor t x).2.1 = t)
    (hwf : WellFormed s) :
    ((makeNextNeighbor p s e [] []).ok = false →
      RefState (makeNextNeighbor p s e [] []).state) ∧
    ((makeNextNeighbor p s e [] []).ok = true →
      (makeNextNeighbor p s e [] []).delta =
        describedDelta p.skip (makeNextNeighbor p s e [] []).state) := by
  have hrev : RefState (revertChanges p.isIncremental true s) := by
    rw [hni]
    exact revertChanges_noninc true s hwf
  rcases h : p.makeOneNeighbor (revertChanges p.isIncremental true s) e
    with ⟨ok, s2, e2⟩
  cases ok
  · have hs2 : s2 = revertChanges p.isIncremental true s := by
      have h1 := hfp (revertChanges p.isIncremental true s) e
      rw [h] at h1
      exact h1 rfl
    constructor
    · intro _
      simp only [makeNextNeighbor, h]
      rw [hs2]
      exact hrev
    · intro hco
      simp only [makeNextNeighbor, h] at hco
      exact Bool.noConfusion hco
  · constructor
    · intro hco
      simp only [makeNextNeighbor, h] at hco
      exact Bool.noConfusion hco
    · intro _
      simp only [makeNextNeighbor, h, applyChanges_eq]
      simp

/-- C2 amended witness: a concrete non-incremental operator (it stages
`values[0] := 3` and always succeeds) on the started one-variable state. -/
def exNonInc : OpParams Unit :=
  ⟨false, fun _ => false, fun t _ => (true, t.setValue 0 3, ())⟩

theorem C2_makeNextNeighbor_amended_witness :
    exNonInc.isIncremental = false ∧ WellFormed exStarted ∧
    (((makeNextNeighbor exNonInc exStarted () [] []).ok = false →
      RefState (makeNextNeighbor exNonInc exStarted () [] []).state) ∧
    ((makeNextNeighbor exNonInc exStarted () [] []).ok = true →
      (makeNextNeighbor exNonInc exStarted () [] []).delta =
        describedDelta exNonInc.skip
          (makeNextNeighbor exNonInc exStarted () [] []).state)) :=
  ⟨rfl, by decide,
   C2_makeNextNeighbor_amended exNonInc exStarted () rfl
     (fun t x hco => Bool.noConfusion hco) (by decide)⟩

/-- An incremental operator whose `MakeOneNeighbor` stages a change without
first reverting. -/
def exIncStage : OpParams Unit :=
  ⟨true, fun _ => false, fun t _ => (true, t.setValue 0 5, ())⟩

/-- C3 counterexample: for the incremental operator `exIncStage`, the very
first `MakeNextNeighbor` after `Start` emits a NON-empty deltadelta —
`Start` does not set `cleared_`, and `RevertChanges(true)` resets it to
false before `ApplyChanges` runs, so every staged change is mirrored. -/
theorem C3_counterexample :
    exIncStage.isIncremental = true ∧
    start exFresh exRefAssign = some exStarted ∧
    (makeNextNeighbor exIncStage exStarted () [] []).ok = true ∧
    (makeNextNeighbor exIncStage exStarted () [] []).deltadelta =
      [DeltaElem.setValueVar 11 5] := by
  decide

/-- C3 (amended): for every operator, the deltadelta emitted by a
`MakeNextNeighbor` is contained in the corresponding delta (as sets of
elements); and the deltadelta is empty whenever the operator state is
`cleared` when `ApplyChanges` runs — which holds on the first call after
`Start` for operators (such as TwoOpt, the only incremental one) whose
`MakeOneNeighbor` performs a full revert before staging. -/
theorem C3_deltadelta_amended {ε : Type} (p : OpParams ε)
    (hinc : p.isIncremental = true) (s : OpState) (e : ε) :
    (∀ x ∈ (makeNextNeighbor p s e [] []).deltadelta,
      x ∈ (makeNextNeighbor p s e [] []).delta) ∧
    ((p.makeOneNeighbor (revertChanges p.isIncremental true s) e).2.1.cleared =
        true →
      (makeNextNeighbor p s e [] []).deltadelta = []) := by
  rcases h : p.makeOneNeighbor (revertChanges p.isIncremental true s) e
    with ⟨ok, s2, e2⟩
  cases ok
  · constructor
    · intro x hx
      simp only [makeNextNeighbor, h] at hx ⊢
      exact hx
    · intro _
      simp only [makeNextNeighbor, h]
  · constructor
    · intro x hx
      simp only [makeNextNeighbor, h, applyChanges_eq] at hx ⊢
      simp only [List.nil_append] at hx ⊢
      exact mem_describedDelta_of_mem_describedDeltaDelta _ _ _ x hx
    · intro hcl
      simp only [h] at hcl
      simp only [makeNextNeighbor, h, applyChanges_eq]
      simp [describedDeltaDelta_of_cleared _ _ _ hcl]

/-- An incremental operator in the style of TwoOpt: `MakeOneNeighbor` calls
`RevertChanges(false)` (a full revert) before staging its move. -/
def exTwoOptLike : OpParams Unit :=
  ⟨true, fun _ => false,
   fun t _ => (true, (revertChanges true false t).setValue 0 9, ())⟩

theorem C3_deltadelta_amended_witness :
    exTwoOptLike.isIncremental = true ∧
    (exTwoOptLike.makeOneNeighbor
      (revertChanges exTwoOptLike.isIncremental true exStarted) ()).2.1.cleared =
      true ∧
    ((∀ x ∈ (makeNextNeighbor exTwoOptLike exStarted () [] []).deltadelta,
      x ∈ (makeNextNeighbor exTwoOptLike exStarted () [] []).delta) ∧
    ((exTwoOptLike.makeOneNeighbor
        (revertChanges exTwoOptLike.isIncremental true exStarted) ()).2.1.cleared =
        true →
      (makeNextNeighbor exTwoOptLike exStarted () [] []).deltadelta = [])) :=
  ⟨rfl, by decide, C3_deltadelta_amended exTwoOptLike rfl exStarted ()⟩

end LocalSearch

namespace LocalSearch

/-- The next-vector state a `PathOperator` walks over: `nNext` is
`number_of_nexts_`, and `next` gives each node's successor (`Next(i)`).
`IsPathEnd(node)` is modelled from the spec: routes end at sink nodes past
the `nNext` prefix, so a node is a path end iff `nNext ≤ node` (the
accessor lives in the solver header, which is not among this repository's
source files).  The C++ `-1` "no exclusion" sentinel corresponds to any
value no walk reaches. -/
structure PathState where
  nNext : Nat
  next : List Nat
deriving DecidableEq, Repr

/-- The `while` loop of `PathOperator::CheckChainValidity` with an explicit
fuel argument.  It is always entered with fuel `nNext + 2`, which the
`chain_size > number_of_nexts_` watchdog never exhausts. -/
def ccvLoop (st : PathState) (chainEnd exclude : Nat) :
    Nat → Nat → Nat → Bool
  | 0, _, _ => false
  | fuel + 1, current, chainSize =>
    if current = chainEnd then true
    else if st.nNext < chainSize then false
    else if st.nNext ≤ current then false
    else
      let c2 := st.next.getD current 0
      if c2 = exclude then false
      else ccvLoop st chainEnd exclude fuel c2 (chainSize + 1)

/-- `PathOperator::CheckChainValidity(before_chain, chain_end, exclude)`. -/
def checkChainValidity (st : PathState) (beforeChain chainEnd exclude : Nat) :
    Bool :=
  if beforeChain = chainEnd ∨ beforeChain = exclude then false
  else ccvLoop st chainEnd exclude (st.nNext + 2) beforeChain 0

/-- `k` steps of the walk along the next-vector. -/
def iterNext (st : PathState) : Nat → Nat → Nat
  | 0, c => c
  | k + 1, c => iterNext st k (st.next.getD c 0)

/-- The claim's characterization of `CheckChainValidity`, read literally:
the walk must first hit `chain_end` within the watchdog bound, without
passing a path end, and without passing `exclude` STRICTLY before
`chain_end`. -/
def claimChainValid (st : PathState) (before chainEnd exclude : Nat) : Prop :=
  before ≠ chainEnd ∧ before ≠ exclude ∧
  ∃ k ∈ List.range (st.nNext + 2),
    iterNext st k before = chainEnd ∧
    (∀ j < k, iterNext st j before ≠ chainEnd) ∧
    (∀ j < k, iterNext st j before < st.nNext) ∧
    (∀ j < k, 0 < j → iterNext st j before ≠ exclude)

/-- The amended characterization: as `claimChainValid`, but the walk must
avoid `exclude` at every step up to AND INCLUDING the arrival at
`chain_end` (the code tests `current == exclude` right after stepping,
before re-testing the loop condition). -/
def amendedChainValid (st : PathState) (before chainEnd exclude : Nat) : Prop :=
  before ≠ chainEnd ∧ before ≠ exclude ∧
  ∃ k ∈ List.range (st.nNext + 2),
    iterNext st k before = chainEnd ∧
    (∀ j < k, iterNext st j before ≠ chainEnd) ∧
    (∀ j < k, iterNext st j before < st.nNext) ∧
    (∀ j < k + 1, 0 < j → iterNext st j before ≠ exclude)

instance (st : PathState) (b ce ex : Nat) :
    Decidable (claimChainValid st b ce ex) := by
  unfold claimChainValid; infer_instance

instance (st : PathState) (b ce ex : Nat) :
    Decidable (amendedChainValid st b ce ex) := by
  unfold amendedChainValid; infer_instance

theorem ccvLoop_iff (st : PathState) (ce ex : Nat) :
    ∀ (fuel current cs : Nat), fuel + cs = st.nNext + 2 →
    (ccvLoop st ce ex fuel current cs = true ↔
      ∃ k, cs + k ≤ st.nNext + 1 ∧ iterNext st k current = ce ∧
        (∀ j < k, iterNext st j current ≠ ce) ∧
        (∀ j < k, iterNext st j current < st.nNext) ∧
        (∀ j, 0 < j → j ≤ k → iterNext st j current ≠ ex)) := by
  intro fuel
  induction fuel with
  | zero =>
    intro current cs hcs
    apply iff_of_false (by simp [ccvLoop])
    rintro ⟨k, hb, -, -, -, -⟩
    omega
  | succ fuel ih =>
    intro current cs hcs
    by_cases h1 : current = ce
    · apply iff_of_true (by simp [ccvLoop, h1])
      refine ⟨0, by omega, by simpa [iterNext] using h1,
        fun j hj => absurd hj (Nat.not_lt_zero j),
        fun j hj => absurd hj (Nat.not_lt_zero j),
        fun j hj0 hjk => absurd hj0 (by omega)⟩
    · by_cases h2 : st.nNext < cs
      · apply iff_of_false (by simp [ccvLoop, h1, h2])
        rintro ⟨k, hb, hk, -, -, -⟩
        obtain rfl : k = 0 := by omega
        exact h1 (by simpa [iterNext] using hk)
      · by_cases h3 : st.nNext ≤ current
        · apply iff_of_false (by simp [ccvLoop, h1, h2, h3])
          rintro ⟨k, hb, hk, -, hpe, -⟩
          rcases Nat.eq_zero_or_pos k with rfl | hkpos
          · exact h1 (by simpa [iterNext] using hk)
          · have := hpe 0 hkpos
            simp [iterNext] at this
            omega
        · by_cases h4 : st.next.getD current 0 = ex
          · apply iff_of_false (by simp [ccvLoop, h1, h2, h3, h4, -List.getD_eq_getElem?_getD])
            rintro ⟨k, hb, hk, -, -, hex⟩
            rcases Nat.eq_zero_or_pos k with rfl | hkpos
            · exact h1 (by simpa [iterNext] using hk)
            · exact hex 1 Nat.one_pos hkpos h4
          · have hstep : ccvLoop st ce ex (fuel + 1) current cs =
                ccvLoop st ce ex fuel (st.next.getD current 0) (cs + 1) := by
              simp [ccvLoop, h1, h2, h3, h4, -List.getD_eq_getElem?_getD]
            rw [hstep, ih (st.next.getD current 0) (cs + 1) (by omega)]
            constructor
            · rintro ⟨k', hb', hk', hmin', hpe', hex'⟩
              refine ⟨k' + 1, by omega, hk', ?_, ?_, ?_⟩
              · intro j hj
                cases j with
                | zero => simpa [iterNext] using h1
                | succ j' => exact hmin' j' (by omega)
              · intro j hj
                cases j with
                | zero => simpa [iterNext] using (by omega : current < st.nNext)
                | succ j' => exact hpe' j' (by omega)
              · intro j hj0 hjk
                cases j with
                | zero => omega
                | succ j' =>
                  rcases Nat.eq_zero_or_pos j' with rfl | hpos
                  · exact h4
                  · exact hex' j' hpos (by omega)
            · rintro ⟨k, hb, hk, hmin, hpe, hex⟩
              have hk0 : k ≠ 0 := by
                rintro rfl
                exact h1 (by simpa [iterNext] using hk)
              obtain ⟨k', rfl⟩ : ∃ k', k = k' + 1 := ⟨k - 1, by omega⟩
              refine ⟨k', by omega, hk, ?_, ?_, ?_⟩
              · intro j hj
                exact hmin (j + 1) (by omega)
              · intro j hj
                exact hpe (j + 1) (by omega)
              · intro j hj0 hjk
                exact hex (j + 1) (by omega) (by omega)

/-- C5 counterexample: on the one-node path `0 → 1` (node 1 is the sink),
`CheckChainValidity(0, 1, 1)` returns false — the walk meets `exclude`
exactly AT `chain_end` — although the claim's reading ("reaches exclude
before chain_end") predicts true. -/
theorem C5_counterexample :
    checkChainValidity ⟨1, [1]⟩ 0 1 1 = false ∧ claimChainValid ⟨1, [1]⟩ 0 1 1 := by
  constructor
  · decide
  · decide

/-- C5 (amended): `CheckChainValidity(before, end, exclude)` returns true
iff the chain is non-empty (`before ≠ end`), `before ≠ exclude`, and the
walk along `Next` first reaches `end` within `n_next + 1` steps without
passing a path end and without meeting `exclude` at any step up to and
including the arrival at `end`; in all other cases it returns false. -/
theorem C5_chain_validity_amended (st : PathState) (before ce ex : Nat) :
    checkChainValidity st before ce ex = true ↔
      amendedChainValid st before ce ex := by
  unfold checkChainValidity amendedChainValid
  by_cases h0 : before = ce ∨ before = ex
  · apply iff_of_false (by simp [h0])
    rintro ⟨hne1, hne2, -⟩
    rcases h0 with h | h
    · exact hne1 h
    · exact hne2 h
  · push_neg at h0
    rw [if_neg (by tauto)]
    rw [ccvLoop_iff st ce ex (st.nNext + 2) before 0 (by omega)]
    constructor
    · rintro ⟨k, hb, hk, hmin, hpe, hex⟩
      exact ⟨h0.1, h0.2, k, List.mem_range.mpr (by omega), hk, hmin, hpe,
        fun j hj hj0 => hex j hj0 (by omega)⟩
    · rintro ⟨-, -, k, hkr, hk, hmin, hpe, hex⟩
      have := List.mem_range.mp hkr
      exact ⟨k, by omega, hk, hmin, hpe, fun j hj0 hjk => hex j (by omega) hj0⟩

end LocalSearch

namespace LocalSearch

theorem startLoop_none_iff (a : List IntVarElement) :
    ∀ (l : List Nat) (s : OpState),
    (startLoop a s l = none ↔ ∃ i ∈ l,
      (a.getD i default).var ≠ s.vars.getD i 0 ∧
      a.find? (fun e => e.var = s.vars.getD i 0) = none) := by
  intro l
  induction l with
  | nil => intro s; simp [startLoop]
  | cons i rest ih =>
    intro s
    by_cases hvar : (a.getD i default).var ≠ s.vars.getD i 0
    · rcases hf : a.find? (fun e => e.var = s.vars.getD i 0) with _ | e
      · constructor
        · intro _
          exact ⟨i, List.mem_cons_self i rest, hvar, hf⟩
        · intro _
          simp only [startLoop, if_pos hvar, hf]
      · have hrec : startLoop a s (i :: rest) =
            startLoop a
              { s with values := s.values.set i e.value,
                       oldValues := s.oldValues.set i e.value,
                       activated := s.activated.set i e.activated,
                       wasActivated := s.wasActivated.set i e.activated }
              rest := by
          simp only [startLoop, if_pos hvar, hf]
        rw [hrec, ih]
        constructor
        · rintro ⟨j, hj, hc⟩
          exact ⟨j, List.mem_cons_of_mem i hj, hc⟩
        · rintro ⟨j, hj, hc⟩
          rcases List.mem_cons.mp hj with rfl | hj'
          · exact absurd hc.2 (by rw [hf]; exact Option.some_ne_none e)
          · exact ⟨j, hj', hc⟩
    · have hrec : startLoop a s (i :: rest) =
          startLoop a
            { s with values := s.values.set i (a.getD i default).value,
                     oldValues := s.oldValues.set i (a.getD i default).value,
                     activated := s.activated.set i (a.getD i default).activated,
                     wasActivated := s.wasActivated.set i (a.getD i default).activated }
            rest := by
        simp only [startLoop, if_neg hvar]
      rw [hrec, ih]
      constructor
      · rintro ⟨j, hj, hc⟩
        exact ⟨j, List.mem_cons_of_mem i hj, hc⟩
      · rintro ⟨j, hj, hc⟩
        rcases List.mem_cons.mp hj with rfl | hj'
        · exact absurd hc.1 hvar
        · exact ⟨j, hj', hc⟩

/-- The two-variable operator holding variables 5 and 6 in that order,
freshly constructed. -/
def exPermOp : OpState :=
  ⟨[5, 6], [0, 0], [0, 0], [false, false], [false, false],
   [false, false], [false, false], [], true⟩

/-- An assignment with the operator's variables in permuted order. -/
def exPermAssign : List IntVarElement := [⟨6, 1, true⟩, ⟨5, 2, true⟩]

/-- C4 counterexample: `exPermAssign` holds variable 6 at slot 0 while the
operator holds variable 5 there, yet `Start` SUCCEEDS — the positional
mismatch merely triggers the by-key lookup (`container.Element(var)`) and
the values are copied correctly. -/
theorem C4_counterexample :
    (exPermAssign.getD 0 default).var ≠ exPermOp.vars.getD 0 0 ∧
    start exPermOp exPermAssign =
      some ⟨[5, 6], [2, 1], [2, 1], [true, true], [true, true],
            [false, false], [false, false], [], true⟩ := by
  decide

/-- C4 (amended): `Start(a)` fails with a fatal error iff `a` contains
fewer variables than the operator, or some operator variable cannot be
found in `a` at all (positional mismatch combined with a failed by-key
lookup).  A different variable at an indexed slot alone does not fail. -/
theorem C4_start_fatal_iff (s : OpState) (a : List IntVarElement) :
    start s a = none ↔
      (a.length < s.vars.length ∨
       ∃ i ∈ List.range s.vars.length,
         (a.getD i default).var ≠ s.vars.getD i 0 ∧
         a.find? (fun e => e.var = s.vars.getD i 0) = none) := by
  unfold start
  by_cases hlen : s.vars.length ≤ a.length
  · rw [if_pos hlen, startLoop_none_iff a (List.range s.vars.length) s]
    constructor
    · intro h
      exact Or.inr h
    · rintro (h | h)
      · omega
      · exact h
  · rw [if_neg hlen]
    constructor
    · intro _
      exact Or.inl (by omega)
    · intro _
      rfl

end LocalSearch

namespace LocalSearch

/-- `MaxMinOperation` from the source: `values_set_` is a `std::set<int64>`
— an ordered collection of DISTINCT values — and `max_` selects between MAX
and MIN aggregation.  `Update` inserts, `Remove` erases, `value()` returns
the largest/smallest element or 0 when empty; `set_value` is a no-op. -/
structure MaxMinOperation where
  maxB : Bool
  valuesSet : Finset Int
deriving DecidableEq

namespace MaxMinOperation

/-- `Init()`: `values_set_.clear()`. -/
def init (o : MaxMinOperation) : MaxMinOperation := { o with valuesSet := ∅ }

/-- `Update(update)`: `values_set_.insert(update)`. -/
def update (o : MaxMinOperation) (u : Int) : MaxMinOperation :=
  { o with valuesSet := insert u o.valuesSet }

/-- `Remove(remove)`: `values_set_.erase(remove)`. -/
def remove (o : MaxMinOperation) (r : Int) : MaxMinOperation :=
  { o with valuesSet := o.valuesSet.erase r }

/-- `value()`: the last (max) or first (min) element of the ordered set, or
0 when the set is empty. -/
def value (o : MaxMinOperation) : Int :=
  if h : o.valuesSet.Nonempty then
    if o.maxB then o.valuesSet.max' h else o.valuesSet.min' h
  else 0

end MaxMinOperation

/-- C6 counterexample: with MAX aggregation, after `Update(5)` twice and
`Remove(5)` once from an `Init`-ed container, the set is EMPTY and
`value()` is 0 — no copy of 5 remains, contradicting the claimed multiset
behaviour (which would leave one copy and `value() = 5`). -/
theorem C6_counterexample :
    ((((MaxMinOperation.mk true ∅).init.update 5).update 5).remove 5).valuesSet =
      (∅ : Finset Int) ∧
    ((((MaxMinOperation.mk true ∅).init.update 5).update 5).remove 5).value = 0 ∧
    ((((MaxMinOperation.mk true ∅).init.update 5).update 5).remove 5).value ≠ 5 := by
  refine ⟨?_, ?_, ?_⟩ <;> decide

/-- C6 (amended): the contribution container of MAX/MIN aggregation is an
ordered SET of distinct values: a duplicate `Update(x)` collapses with the
first, a single `Remove(x)` deletes `x` entirely, and after `Update(x)`
twice and `Remove(x)` once no copy of `x` remains in the container. -/
theorem C6_maxmin_set_semantics (o : MaxMinOperation) (x : Int) :
    ((o.update x).update x).remove x = o.remove x ∧
    x ∉ (((o.update x).update x).remove x).valuesSet := by
  constructor
  · show ({ o with valuesSet := (insert x (insert x o.valuesSet)).erase x } :
      MaxMinOperation) = { o with valuesSet := o.valuesSet.erase x }
    rw [Finset.insert_idem, Finset.erase_insert_eq_erase]
  · exact Finset.not_mem_erase x _

end LocalSearch

namespace LocalSearch

/-- `kint64max`: the guard value `Evaluate` short-circuits on. -/
def kint64max : Int := 9223372036854775807

/-- The `LSOperation` interface (`Init/Update/Remove/value/set_value`) with
state type `σ`. -/
structure LSOp (σ : Type) where
  init : σ
  update : σ → Int → σ
  remove : σ → Int → σ
  value : σ → Int
  setValue : σ → Int → σ

/-- `SumOperation`: identity 0, additive update, subtractive removal. -/
def sumOperation : LSOp Int :=
  ⟨0, fun v u => v + u, fun v r => v - r, fun v => v, fun _ n => n⟩

/-- `Solver::LocalSearchFilterBound`: LE, GE or EQ. -/
inductive FilterBound where
  | le : FilterBound
  | ge : FilterBound
  | eq : FilterBound
deriving DecidableEq, Repr

/-- The state of a binary `ObjectiveFilter`: the filter's variable handles,
the synchronized contribution caches, the objective variable's bounds, the
bound mode, the aggregation state, and the incrementality bookkeeping. -/
structure ObjFilter (σ : Type) where
  vars : List Nat
  primarySize : Nat
  cache : List Int
  deltaCache : List Int
  objMin : Int
  objMax : Int
  bound : FilterBound
  opSt : σ
  oldValue : Int
  oldDeltaValue : Int
  incremental : Bool
  values : List Int
deriving DecidableEq, Repr

/-- `BinaryObjectiveFilter::EvaluateElementValue`: an activated element
contributes `eval(index, element.value)`; a deactivated one contributes
`eval(index, var.Min())` when the variable is bound (`vb index` supplies
the bound value), and nothing otherwise. -/
def evaluateElementValue (eval : Nat → Int → Int) (vb : Nat → Option Int)
    (e : IntVarElement) (index : Nat) : Option Int :=
  if e.activated then some (eval index e.value)
  else
    match vb index with
    | some m => some (eval index m)
    | none => none

/-- `ObjectiveFilter::Evaluate(delta, current_value, out_values,
cache_delta_values)`: seed the aggregation with `current_value`, then for
each delta element found among the primary variables, remove the cached
contribution (read from `delta_cache_` when `useDeltaCache`, else from
`cache_`) and add the re-evaluated one, recording it into `delta_cache_`
when requested.  The filter record is threaded so that writes to
`delta_cache_` are visible to later reads, as in the C++ buffer. -/
def evaluateObj {σ : Type} (L : LSOp σ) (eval : Nat → Int → Int)
    (vb : Nat → Option Int) (F : ObjFilter σ) (delta : List IntVarElement)
    (currentValue : Int) (useDeltaCache : Bool) (cacheDeltaValues : Bool) :
    Int × ObjFilter σ :=
  if currentValue = kint64max then (currentValue, F)
  else
    let F0 := { F with opSt := L.setValue F.opSt currentValue }
    let Fr := delta.foldl
      (fun (G : ObjFilter σ) e =>
        match G.vars.findIdx? (fun w => w = e.var) with
        | some index =>
          if index < G.primarySize then
            let outVal :=
              if useDeltaCache then G.deltaCache.getD index 0
              else G.cache.getD index 0
            let G1 := { G with opSt := L.remove G.opSt outVal }
            match evaluateElementValue eval vb e index with
            | some obj =>
              let G2 := { G1 with opSt := L.update G1.opSt obj }
              if cacheDeltaValues then
                { G2 with deltaCache := G2.deltaCache.set index obj }
              else G2
            | none => G1
          else G
        | none => G)
      F0
    (L.value Fr.opSt, Fr)

/-- `ObjectiveFilter::Accept(delta, deltadelta)`: choose full or
delta-of-delta evaluation based on `deltadelta` and the `incremental_`
latch, update the latch and `old_delta_value_`, and compare the candidate
value against the objective bounds (intersected with the delta's own
objective bounds when it carries the same objective variable) under the
filter's bound mode. -/
def acceptObj {σ : Type} (L : LSOp σ) (eval : Nat → Int → Int)
    (vb : Nat → Option Int) (F : ObjFilter σ)
    (delta deltadelta : List IntVarElement) (deltaObj : Option (Int × Int)) :
    Bool × ObjFilter σ :=
  let r :=
    if !deltadelta.isEmpty then
      if !F.incremental then
        let t := evaluateObj L eval vb F delta F.oldValue false true
        (t.1, { t.2 with incremental := true })
      else
        let t := evaluateObj L eval vb F deltadelta F.oldDeltaValue true true
        (t.1, { t.2 with incremental := true })
    else
      let F' :=
        if F.incremental then
          { F with deltaCache := F.cache, oldDeltaValue := F.oldValue,
                   incremental := false }
        else { F with incremental := false }
      evaluateObj L eval vb F' delta F'.oldValue false false
  let value := r.1
  let F2 := { r.2 with oldDeltaValue := value }
  let varMin := match deltaObj with
    | some p => max F.objMin p.1
    | none => F.objMin
  let varMax := match deltaObj with
    | some p => min F.objMax p.2
    | none => F.objMax
  let ok :=
    match F.bound with
    | FilterBound.le => decide (value ≤ varMax)
    | FilterBound.ge => decide (varMin ≤ value)
    | FilterBound.eq => decide (value ≤ varMax) && decide (varMin ≤ value)
  (ok, F2)

/-- `IntVarLocalSearchFilter::Synchronize` followed by
`ObjectiveFilter::OnSynchronize`: store the reference values, re-`Init` the
aggregation, refill both caches from `SynchronizedElementValue(i) =
eval(i, Value(i))`, and reset `old_value_`, `old_delta_value_` and the
`incremental_` latch. -/
def synchronizeObj {σ : Type} (L : LSOp σ) (eval : Nat → Int → Int)
    (F : ObjFilter σ) (vals : List Int) : ObjFilter σ :=
  let F0 := { F with values := vals, opSt := L.init }
  let Fr := (List.range F.primarySize).foldl
    (fun (G : ObjFilter σ) i =>
      let obj := eval i (G.values.getD i 0)
      { G with cache := G.cache.set i obj,
               deltaCache := G.deltaCache.set i obj,
               opSt := L.update G.opSt obj })
    F0
  { Fr with oldValue := L.value Fr.opSt, oldDeltaValue := L.value Fr.opSt,
            incremental := false }

/-- A freshly constructed binary SUM/LE objective filter over four
variables (handles 0..3), with objective bounds [0, 100]: caches zeroed,
aggregation initialised, `old_value_ = op_->value()`. -/
def exSumFilter : ObjFilter Int :=
  { vars := [0, 1, 2, 3], primarySize := 4, cache := [0, 0, 0, 0],
    deltaCache := [0, 0, 0, 0], objMin := 0, objMax := 100,
    bound := FilterBound.le, opSt := 0, oldValue := 0, oldDeltaValue := 0,
    incremental := false, values := [0, 0, 0, 0] }

/-- `exSumFilter` synchronized against the reference values `[10,20,30,40]`
with evaluator `eval(i,v) = v` (running sum 100). -/
def exSyncedFilter : ObjFilter Int :=
  synchronizeObj sumOperation (fun _ v => v) exSumFilter [10, 20, 30, 40]

/-- C7: on the synchronized SUM/LE filter with bound 100 over values
`[10,20,30,40]`, `Accept(delta = {var2 := 31}, deltadelta = ∅)` returns
false (the candidate sum is 101), and the subsequent
`Accept(delta = {var2 := 29}, deltadelta = ∅)` returns true (sum 99). -/
theorem C7_objective_filter_sum_le :
    exSyncedFilter.oldValue = 100 ∧
    (acceptObj sumOperation (fun _ v => v) (fun _ => none) exSyncedFilter
      [⟨2, 31, true⟩] [] none).1 = false ∧
    (acceptObj sumOperation (fun _ v => v) (fun _ => none)
      (acceptObj sumOperation (fun _ v => v) (fun _ => none) exSyncedFilter
        [⟨2, 31, true⟩] [] none).2
      [⟨2, 29, true⟩] [] none).1 = true := by
  refine ⟨?_, ?_, ?_⟩ <;> decide

end LocalSearch

namespace LocalSearch

/-- A stub sub-operator of a compound: it produces `cap` numbered
candidates per episode and then reports exhaustion.  `subMakeNext` returns
the candidate's ordinal (1-based) or `none`. -/
structure SubOp where
  cap : Nat
  produced : Nat
deriving DecidableEq, Repr

def subMakeNext (s : SubOp) : Option Nat × SubOp :=
  if s.produced < s.cap then
    (some (s.produced + 1), { s with produced := s.produced + 1 })
  else (none, s)

def subStart (s : SubOp) : SubOp := { s with produced := 0 }

/-- The state of `CompoundOperator`: the cursor `index_`, the sorted
permutation `operator_indices_`, and the sub-operator states. -/
structure CompoundState where
  index : Nat
  opIndices : List Nat
  subs : List SubOp
deriving DecidableEq, Repr

/-- The no-restart (round-robin) evaluator `CompoundOperatorNoRestart`:
`operator_index - active_index`, wrapped by `size` for indices before the
active one. -/
def compoundOperatorNoRestart (size activeIndex opIndex : Nat) : Int :=
  if opIndex < activeIndex then (size : Int) + opIndex - activeIndex
  else (opIndex : Int) - activeIndex

/-- Insertion step of the sort `CompoundOperator::Start` performs on
`operator_indices_` (`std::sort` with the `OperatorComparator`; the keys
are distinct here, so any correct sort yields the same permutation). -/
def insertSorted (le : Nat → Nat → Bool) (x : Nat) : List Nat → List Nat
  | [] => [x]
  | y :: ys => if le x y then x :: y :: ys else y :: insertSorted le x ys

def sortIndices (le : Nat → Nat → Bool) (l : List Nat) : List Nat :=
  l.foldr (insertSorted le) []

/-- The `OperatorComparator` with the no-restart evaluator: order by
evaluator value, ties broken by natural index order. -/
def cmpNoRestart (size active a b : Nat) : Bool :=
  decide (compoundOperatorNoRestart size active a <
      compoundOperatorNoRestart size active b ∨
    (compoundOperatorNoRestart size active a =
      compoundOperatorNoRestart size active b ∧ a < b))

/-- `CompoundOperator::Start`: start every sub-operator, then sort
`operator_indices_` around the currently active operator
(`operator_indices_[index_]`), and reset `index_` to 0. -/
def compoundStart (st : CompoundState) : CompoundState :=
  if st.subs.length = 0 then st
  else
    let active := st.opIndices.getD st.index 0
    { index := 0,
      opIndices := sortIndices (cmpNoRestart st.subs.length active) st.opIndices,
      subs := st.subs.map subStart }

/-- The do-while loop of `CompoundOperator::MakeNextNeighbor`: drain the
operator under the cursor; on failure advance the cursor, exiting (with
the cursor wrapped to 0) when it passes the last operator.  The fuel is
`size - index`, enough for the remaining cursor positions. -/
def compoundLoop : Nat → CompoundState → Option (Nat × Nat) × CompoundState
  | 0, st => (none, st)
  | fuel + 1, st =>
    let oi := st.opIndices.getD st.index 0
    match subMakeNext (st.subs.getD oi ⟨0, 0⟩) with
    | (some k, sub') => (some (oi, k), { st with subs := st.subs.set oi sub' })
    | (none, sub') =>
      let st1 := { st with subs := st.subs.set oi sub' }
      let idx := st1.index + 1
      if idx = st1.subs.length then (none, { st1 with index := 0 })
      else compoundLoop fuel { st1 with index := idx }

/-- `CompoundOperator::MakeNextNeighbor`: the produced pair is (sub-operator
index, candidate ordinal). -/
def compoundMakeNext (st : CompoundState) : Option (Nat × Nat) × CompoundState :=
  if st.subs.length = 0 then (none, st)
  else compoundLoop (st.subs.length - st.index) st

/-- Run `n` successive `MakeNextNeighbor` calls, collecting the results. -/
def cmRun : Nat → CompoundState → List (Option (Nat × Nat)) × CompoundState
  | 0, st => ([], st)
  | n + 1, st =>
    let r := compoundMakeNext st
    let rest := cmRun n r.2
    (r.1 :: rest.1, rest.2)

/-- The compound of the scenario: sub-operators A (index 0, 1 candidate),
B (index 1, 2 candidates), C (index 2, 1 candidate), as constructed
(indices in natural order, cursor at 0). -/
def exCompound0 : CompoundState :=
  { index := 0, opIndices := [0, 1, 2], subs := [⟨1, 0⟩, ⟨2, 0⟩, ⟨1, 0⟩] }

/-- The compound right after its first `Start`. -/
def exSweep1 : CompoundState := compoundStart exCompound0

/-- C8 counterexample: the full sweep does yield A1, B1, B2, C1 and then
false, but the exhausting call wraps the cursor to 0, so the FOLLOWING
re-`Start` sorts around A (the head of the previous order), keeps the
order [A, B, C], and the next sweep queries A first — not C as the claim
states. -/
theorem C8_counterexample :
    (cmRun 5 exSweep1).1 =
      [some (0, 1), some (1, 1), some (1, 2), some (2, 1), none] ∧
    (cmRun 5 exSweep1).2.index = 0 ∧
    (compoundStart (cmRun 5 exSweep1).2).opIndices = [0, 1, 2] ∧
    (compoundMakeNext (compoundStart (cmRun 5 exSweep1).2)).1 = some (0, 1) := by
  refine ⟨?_, ?_, ?_, ?_⟩ <;> decide

/-- C8 (amended): the full sweep yields the 4 neighbors A1, B1, B2, C1 and
then false.  A re-`Start` performed while the cursor still rests on C —
after C's success, before the exhausting call — sorts the order to
[C, A, B]; after the exhausting false return the cursor has wrapped to 0
and re-`Start` keeps the order [A, B, C]. -/
theorem C8_compound_roundrobin_amended :
    (cmRun 5 exSweep1).1 =
      [some (0, 1), some (1, 1), some (1, 2), some (2, 1), none] ∧
    (cmRun 4 exSweep1).2.index = 2 ∧
    (compoundStart (cmRun 4 exSweep1).2).opIndices = [2, 0, 1] ∧
    (compoundStart (cmRun 5 exSweep1).2).opIndices = [0, 1, 2] := by
  refine ⟨?_, ?_, ?_, ?_⟩ <;> decide

end LocalSearch

namespace LocalSearch

/-- The `while` loop of `MoveTowardTargetLS::MakeOneNeighbor`, with fuel
`Size() - num_var_since_last_start_` (the loop increments the counter each
iteration, so the fuel runs out exactly when the loop condition fails):
advance the rotating cursor, and stage the target value on the first
variable whose reference value differs from it. -/
def mttLoop (target : List Int) (s : OpState) :
    Nat → Nat → Nat → Bool × OpState × (Nat × Nat)
  | 0, vi, num => (false, s, (vi, num))
  | fuel + 1, vi, num =>
    if num < s.vars.length then
      let num' := num + 1
      let vi' := (vi + 1) % s.vars.length
      let tv := target.getD vi' 0
      let cv := s.oldValues.getD vi' 0
      if cv ≠ tv then (true, s.setValue vi' tv, (vi', num'))
      else mttLoop target s fuel vi' num'
    else (false, s, (vi, num))

/-- `MoveTowardTargetLS::MakeOneNeighbor`; the extra state is the pair
`(variable_index_, num_var_since_last_start_)`. -/
def mttMakeOne (target : List Int) :
    OpState → Nat × Nat → Bool × OpState × (Nat × Nat) :=
  fun s e => mttLoop target s (s.vars.length - e.2) e.1 e.2

/-- `MoveTowardTargetLS` as operator parameters: not incremental (the base
default is kept), `SkipUnchanged` is the base-class default — modelled from
the spec as constantly false; it is irrelevant here because the operator
only stages values that differ from the reference. -/
def mttParams (target : List Int) : OpParams (Nat × Nat) :=
  ⟨false, fun _ => false, mttMakeOne target⟩

/-- A fresh four-variable operator (handles 0..3). -/
def exMttFresh : OpState :=
  ⟨[0, 1, 2, 3], [0, 0, 0, 0], [0, 0, 0, 0],
   [false, false, false, false], [false, false, false, false],
   [false, false, false, false], [false, false, false, false], [], true⟩

/-- The reference assignment `[0,0,0,0]`, all variables activated. -/
def exMttAssign : List IntVarElement :=
  [⟨0, 0, true⟩, ⟨1, 0, true⟩, ⟨2, 0, true⟩, ⟨3, 0, true⟩]

/-- `exMttFresh` after `Start(exMttAssign)`. -/
def exMttStarted : OpState :=
  ⟨[0, 1, 2, 3], [0, 0, 0, 0], [0, 0, 0, 0],
   [true, true, true, true], [true, true, true, true],
   [false, false, false, false], [false, false, false, false], [], true⟩

/-- The target values `[1,0,1,0]`. -/
def exMttTarget : List Int := [1, 0, 1, 0]

/-- C9: for `MoveTowardTargetLS` over reference `[0,0,0,0]` and target
`[1,0,1,0]` (cursor initialised to `Size()-1 = 3`, counter reset to 0 by
`OnStart`): the first call emits the single change `var0 := 1`, the second
emits `var2 := 1`, the third returns false; the cursor is not reset
between calls — it moves 3 → 0 → 2 → 3, each call resuming the scan where
the previous one stopped. -/
theorem C9_move_toward_target :
    start exMttFresh exMttAssign = some exMttStarted ∧
    (makeNextNeighbor (mttParams exMttTarget) exMttStarted (3, 0) [] []).ok =
      true ∧
    (makeNextNeighbor (mttParams exMttTarget) exMttStarted (3, 0) [] []).delta =
      [DeltaElem.setValueVar 0 1] ∧
    (makeNextNeighbor (mttParams exMttTarget) exMttStarted (3, 0) [] []).extra =
      (0, 1) ∧
    (makeNextNeighbor (mttParams exMttTarget)
      (makeNextNeighbor (mttParams exMttTarget) exMttStarted (3, 0) [] []).state
      (0, 1) [] []).ok = true ∧
    (makeNextNeighbor (mttParams exMttTarget)
      (makeNextNeighbor (mttParams exMttTarget) exMttStarted (3, 0) [] []).state
      (0, 1) [] []).delta = [DeltaElem.setValueVar 2 1] ∧
    (makeNextNeighbor (mttParams exMttTarget)
      (makeNextNeighbor (mttParams exMttTarget) exMttStarted (3, 0) [] []).state
      (0, 1) [] []).extra = (2, 3) ∧
    (makeNextNeighbor (mttParams exMttTarget)
      (makeNextNeighbor (mttParams exMttTarget)
        (makeNextNeighbor (mttParams exMttTarget) exMttStarted (3, 0) [] []).state
        (0, 1) [] []).state
      (2, 3) [] []).ok = false ∧
    (makeNextNeighbor (mttParams exMttTarget)
      (makeNextNeighbor (mttParams exMttTarget)
        (makeNextNeighbor (mttParams exMttTarget) exMttStarted (3, 0) [] []).state
        (0, 1) [] []).state
      (2, 3) [] []).extra = (3, 4) := by
  refine ⟨?_, ?_, ?_, ?_, ?_, ?_, ?_, ?_, ?_⟩ <;> decide

end LocalSearch

namespace LocalSearch

/-- The solver's neighbor counters written by `FindOneNeighbor::Next`. -/
structure SearchCounters where
  neighbors : Nat
  filteredNeighbors : Nat
  acceptedNeighbors : Nat
deriving DecidableEq, Repr

/-- The boolean outcomes of one iteration of the `FindOneNeighbor::Next`
loop: did `MakeNextNeighbor` produce a candidate (with the limit not hit),
did the meta-heuristic filter (`AcceptDelta`) and the local filters
(`FilterAccept`) accept, and did the nested `SolveAndCommit` succeed. -/
structure IterOutcome where
  moveFound : Bool
  mhFilter : Bool
  moveFilter : Bool
  solveOk : Bool
deriving DecidableEq, Repr

/-- The counter updates of one iteration of `FindOneNeighbor::Next`:
`neighbors_ += 1` on every produced candidate, `filtered_neighbors_ += 1`
when both filters accept, `accepted_neighbors_ += 1` when the nested solve
commits. -/
def findOneNeighborStep (c : SearchCounters) (o : IterOutcome) :
    SearchCounters :=
  if o.moveFound then
    let c1 := { c with neighbors := c.neighbors + 1 }
    if o.mhFilter && o.moveFilter then
      let c2 := { c1 with filteredNeighbors := c1.filteredNeighbors + 1 }
      if o.solveOk then
        { c2 with acceptedNeighbors := c2.acceptedNeighbors + 1 }
      else c2
    else c1
  else c

/-- Iterating the loop over a sequence of outcomes. -/
def runCounters (c : SearchCounters) (l : List IterOutcome) : SearchCounters :=
  l.foldl findOneNeighborStep c

theorem findOneNeighborStep_mono (c : SearchCounters) (o : IterOutcome)
    (h1 : c.acceptedNeighbors ≤ c.filteredNeighbors)
    (h2 : c.filteredNeighbors ≤ c.neighbors) :
    (findOneNeighborStep c o).acceptedNeighbors ≤
      (findOneNeighborStep c o).filteredNeighbors ∧
    (findOneNeighborStep c o).filteredNeighbors ≤
      (findOneNeighborStep c o).neighbors := by
  rcases o with ⟨mf, mh, mv, so⟩
  cases mf <;> cases mh <;> cases mv <;> cases so <;>
    simp [findOneNeighborStep] <;> omega

/-- C10: the driver increments `neighbors` once per produced candidate,
`filtered_neighbors` only when the meta-heuristic filter and the local
filters both accept, and `accepted_neighbors` only when the nested solve
commits; hence `accepted_neighbors ≤ filtered_neighbors ≤ neighbors` is
preserved by every iteration of the loop. -/
theorem C10_counter_invariant (l : List IterOutcome) (c : SearchCounters)
    (h1 : c.acceptedNeighbors ≤ c.filteredNeighbors)
    (h2 : c.filteredNeighbors ≤ c.neighbors) :
    (runCounters c l).acceptedNeighbors ≤
      (runCounters c l).filteredNeighbors ∧
    (runCounters c l).filteredNeighbors ≤ (runCounters c l).neighbors := by
  induction l generalizing c with
  | nil => exact ⟨h1, h2⟩
  | cons o rest ih =>
    have hs := findOneNeighborStep_mono c o h1 h2
    exact ih (findOneNeighborStep c o) hs.1 hs.2

/-- A sample outcome sequence: an accepted candidate, a filtered-but-
infeasible one, a rejected one, and an exhausted call. -/
def exOutcomes : List IterOutcome :=
  [⟨true, true, true, true⟩, ⟨true, true, true, false⟩,
   ⟨true, false, true, false⟩, ⟨false, false, false, false⟩]

theorem C10_counter_invariant_witness :
    (runCounters ⟨0, 0, 0⟩ exOutcomes).acceptedNeighbors ≤
      (runCounters ⟨0, 0, 0⟩ exOutcomes).filteredNeighbors ∧
    (runCounters ⟨0, 0, 0⟩ exOutcomes).filteredNeighbors ≤
      (runCounters ⟨0, 0, 0⟩ exOutcomes).neighbors :=
  C10_counter_invariant exOutcomes ⟨0, 0, 0⟩ (by decide) (by decide)

end LocalSearch
